import Mathlib

/-!
Verification development for the Game Achievements backlog backend.

The definitions below are a shallow embedding of the TypeScript source:

* `transformAchievementsData`, `getGameAchievements`, `getUserGames`,
  `transformGameData` embed `SteamService` (services/SteamService.ts);
* `rateLimitStep` and `rateLimitCheck` embed the `rateLimit` middleware;
* `achievementsSummary` embeds the summary computed by the
  achievements route handler.

JavaScript `Map` objects are embedded as association lists
(`List (String × α)`) with insert-or-replace-in-place (`mapSet`),
first-match lookup (`mapGet`) and in-place value update (`mapUpdate`),
which matches the insertion-ordered semantics of `Map`.
`Date` values are embedded as milliseconds since the epoch (`Nat`),
epoch-second fields stay `Nat`, and `Date.now()` style clock readings
are `Int` so that the subtraction in the rate limiter is exact.
-/

namespace Steam

/-- A raw schema entry as consumed by `transformAchievementsData`
(fields `name`, `displayName`, `description`, `icon`, `icongray`,
`hidden` of the Steam game schema response). -/
structure SchemaEntry where
  name : String
  displayName : String
  description : String
  icon : String
  icongray : String
  hidden : Nat
deriving Repr, DecidableEq

/-- A raw global achievement percentage entry (fields `name`, `percent`). -/
structure GlobalEntry where
  name : String
  percent : Int
deriving Repr, DecidableEq

/-- A raw per-user achievement entry (fields `apiname`, `achieved`,
`unlocktime`).  `unlocktime` is optional epoch seconds. -/
structure UserEntry where
  apiname : String
  achieved : Nat
  unlocktime : Option Nat
deriving Repr, DecidableEq

/-- The `icon` sub-object of a canonical achievement record. -/
structure AchievementIcon where
  default : String
  achieved : String
deriving Repr, DecidableEq

/-- The canonical achievement record produced by the merge. -/
structure Achievement where
  apiName : String
  name : String
  description : String
  icon : AchievementIcon
  globalPercentage : Int
  unlocked : Bool
  unlockTime : Option Nat
  platform : String
  hidden : Bool
deriving Repr, DecidableEq

/-- Association-list embedding of JavaScript `Map.prototype.set`:
replace the value in place when the key is present, append otherwise. -/
def mapSet {α : Type} : List (String × α) → String → α → List (String × α)
  | [], k, v => [(k, v)]
  | (k₀, v₀) :: rest, k, v =>
      if k₀ = k then (k₀, v) :: rest else (k₀, v₀) :: mapSet rest k v

/-- Association-list embedding of `Map.prototype.get`: first match. -/
def mapGet {α : Type} : List (String × α) → String → Option α
  | [], _ => none
  | (k₀, v₀) :: rest, k => if k₀ = k then some v₀ else mapGet rest k

/-- In-place mutation of the value stored under a key, when present
(the `const x = map.get(k); if (x) mutate(x)` idiom of the source). -/
def mapUpdate {α : Type} : List (String × α) → String → (α → α) → List (String × α)
  | [], _, _ => []
  | (k₀, v₀) :: rest, k, f =>
      if k₀ = k then (k₀, f v₀) :: rest else (k₀, v₀) :: mapUpdate rest k f

/-- Step 1 of the merge: the base record built from one schema entry. -/
def mkBaseAchievement (ach : SchemaEntry) : Achievement :=
  { apiName := ach.name
    name := ach.displayName
    description := ach.description
    icon := { default := ach.icon, achieved := ach.icongray }
    globalPercentage := 0
    unlocked := false
    unlockTime := none
    platform := "steam"
    hidden := ach.hidden == 1 }

/-- Embedding of the JavaScript expression `t || undefined` for an
optional number: `0` and absence are falsy and give `undefined`. -/
def jsNumOrUndef (t : Option Nat) : Option Nat :=
  match t with
  | none => none
  | some n => if n = 0 then none else some n

/-- Step 2 body: `achievement.globalPercentage = globalAch.percent`. -/
def setGlobal (g : GlobalEntry) (a : Achievement) : Achievement :=
  { a with globalPercentage := g.percent }

/-- Step 3 body: `achievement.unlocked = userAch.achieved === 1;
achievement.unlockTime = userAch.unlocktime || undefined`. -/
def setUser (u : UserEntry) (a : Achievement) : Achievement :=
  { a with unlocked := u.achieved == 1, unlockTime := jsNumOrUndef u.unlocktime }

/-- Step 1 of `transformAchievementsData`: build the map keyed by the
schema entry name. -/
def buildBase (schema : List SchemaEntry) : List (String × Achievement) :=
  schema.foldl (fun m ach => mapSet m ach.name (mkBaseAchievement ach)) []

/-- Step 2 of `transformAchievementsData`: overlay global percentages. -/
def applyGlobal (m : List (String × Achievement)) (globalStats : List GlobalEntry) :
    List (String × Achievement) :=
  globalStats.foldl (fun m g => mapUpdate m g.name (setGlobal g)) m

/-- Step 3 of `transformAchievementsData`: overlay per-user unlock data. -/
def applyUser (m : List (String × Achievement)) (userAchievements : List UserEntry) :
    List (String × Achievement) :=
  userAchievements.foldl (fun m u => mapUpdate m u.apiname (setUser u)) m

/-- `SteamService.transformAchievementsData`: build the schema-keyed
map, overlay global stats, overlay user stats, and emit the map values
in insertion order.  The trailing `safeParse` in the source only logs
warnings and returns the list unchanged, so it does not appear here. -/
def transformAchievementsData (userAchievements : List UserEntry)
    (globalStats : List GlobalEntry) (schema : List SchemaEntry) : List Achievement :=
  (applyUser (applyGlobal (buildBase schema) globalStats) userAchievements).map Prod.snd

/-- The spec-side step order with the two overlays swapped (user-stats
overlay before global-stats overlay), used to compare against the
implemented order. -/
def transformAchievementsDataSwapped (userAchievements : List UserEntry)
    (globalStats : List GlobalEntry) (schema : List SchemaEntry) : List Achievement :=
  (applyGlobal (applyUser (buildBase schema) userAchievements) globalStats).map Prod.snd

/-- Lookup of an output record by its `apiName` field. -/
def findByApi (out : List Achievement) (k : String) : Option Achievement :=
  out.find? (fun a => a.apiName == k)

/-- A raw owned-games entry as returned by the upstream API. -/
structure SteamGame where
  appid : Nat
  name : String
  playtime_forever : Nat
  playtime_2weeks : Option Nat
  img_icon_url : String
  has_community_visible_stats : Bool
  rtime_last_played : Option Nat
deriving Repr, DecidableEq

/-- The `playtime` sub-object of a canonical game record. -/
structure Playtime where
  total : Nat
  twoWeeks : Option Nat
deriving Repr, DecidableEq

/-- The canonical game record.  `lastPlayed` is a `Date` embedded as
milliseconds since the epoch. -/
structure Game where
  appId : Nat
  name : String
  playtime : Playtime
  iconUrl : String
  coverUrl : String
  hasCommunityVisibleStats : Bool
  lastPlayed : Option Nat
deriving Repr, DecidableEq

/-- `SteamService.transformGameData`: one raw game to one canonical
record.  `new Date(t * 1000)` becomes `some (t * 1000)`; the source
guard is `rtime_last_played != null`, hence any present value (zero
included) produces a timestamp. -/
def transformGameData (game : SteamGame) : Game :=
  { appId := game.appid
    name := game.name
    playtime := { total := game.playtime_forever, twoWeeks := game.playtime_2weeks }
    iconUrl := "http://media.steampowered.com/steamcommunity/public/images/apps/"
      ++ toString game.appid ++ "/" ++ game.img_icon_url ++ ".jpg"
    coverUrl := "https://cdn.akamai.steamstatic.com/steam/apps/"
      ++ toString game.appid ++ "/library_600x900.jpg"
    hasCommunityVisibleStats := game.has_community_visible_stats
    lastPlayed :=
      match game.rtime_last_played with
      | some t => some (t * 1000)
      | none => none }

/-- Body of the owned-games response (`games` is optional). -/
structure OwnedGamesBody where
  games : Option (List SteamGame)
deriving Repr, DecidableEq

/-- The owned-games response; the source accesses it as
`data.response?.games`, so `response` itself may be absent. -/
structure OwnedGamesResponse where
  response : Option OwnedGamesBody
deriving Repr, DecidableEq

/-- `SteamService.getUserGames` after the upstream fetch:
`data.response?.games || []` mapped through `transformGameData`
(the `safeParse` call only logs warnings). -/
def getUserGames (data : OwnedGamesResponse) : List Game :=
  let games := (data.response.bind OwnedGamesBody.games).getD []
  games.map transformGameData

/-- The typed error produced by `handleSteamError`. -/
structure SteamAPIError where
  message : String
  statusCode : Option Nat
  steamErrorCode : Option Nat
deriving Repr, DecidableEq

/-- `playerstats` object of the per-user achievements response. -/
structure PlayerStats where
  achievements : Option (List UserEntry)
deriving Repr, DecidableEq

/-- Per-user achievements response (`playerstats` optional). -/
structure PlayerAchievementsResponse where
  playerstats : Option PlayerStats
deriving Repr, DecidableEq

/-- `achievementpercentages` object of the global stats response. -/
structure AchievementPercentages where
  achievements : Option (List GlobalEntry)
deriving Repr, DecidableEq

/-- Global achievement percentages response. -/
structure GlobalAchievementsResponse where
  achievementpercentages : Option AchievementPercentages
deriving Repr, DecidableEq

/-- `availableGameStats` object of the schema response. -/
structure AvailableGameStats where
  achievements : Option (List SchemaEntry)
deriving Repr, DecidableEq

/-- `game` object of the schema response. -/
structure GameStats where
  availableGameStats : Option AvailableGameStats
deriving Repr, DecidableEq

/-- Schema-for-game response. -/
structure SchemaForGameResponse where
  game : Option GameStats
deriving Repr, DecidableEq

/-- `SteamService.getGameAchievements`: the three upstream fetches are
awaited together (`Promise.all` rejects when any one rejects), so the
merge runs only when all three succeeded; any failure is caught and an
empty list is returned. -/
def getGameAchievements (userStats : Except SteamAPIError PlayerAchievementsResponse)
    (globalStats : Except SteamAPIError GlobalAchievementsResponse)
    (schema : Except SteamAPIError SchemaForGameResponse) : List Achievement :=
  match userStats, globalStats, schema with
  | .ok u, .ok g, .ok s =>
      transformAchievementsData
        ((u.playerstats.bind PlayerStats.achievements).getD [])
        ((g.achievementpercentages.bind AchievementPercentages.achievements).getD [])
        (((s.game.bind GameStats.availableGameStats).bind AvailableGameStats.achievements).getD [])
  | _, _, _ => []

/-- The summary object computed by the achievements route handler.
`percentage` is the exact value of the JavaScript division, embedded
as a rational. -/
structure AchievementsSummary where
  total : Nat
  unlocked : Nat
  percentage : Rat
deriving Repr, DecidableEq

/-- The achievements route handler summary:
`unlockedCount = achievements.filter(a => a.unlocked).length` and
`percentage = total > 0 ? unlocked / total * 100 : 0`. -/
def achievementsSummary (achievements : List Achievement) : AchievementsSummary :=
  let unlockedCount := (achievements.filter (fun a => a.unlocked)).length
  { total := achievements.length
    unlocked := unlockedCount
    percentage :=
      if achievements.length > 0 then
        ((unlockedCount : Rat) / (achievements.length : Rat)) * 100
      else 0 }

/-- Configuration of one `rateLimit` middleware instance. -/
structure RateLimitConfig where
  windowMs : Int
  maxRequests : Nat
deriving Repr, DecidableEq

/-- One entry of the `requestStore` map: `{ count, resetTime }`. -/
structure RateData where
  count : Nat
  resetTime : Int
deriving Repr, DecidableEq

/-- Outcome of one admission check: `next()` or a 429 response
carrying the computed `retryAfter` seconds. -/
inductive RLResult where
  | admitted : RLResult
  | rejected : Int → RLResult
deriving Repr, DecidableEq

/-- `Math.ceil(a / 1000)` on an exact integer `a`. -/
def jsCeilDivThousand (a : Int) : Int := -((-a).ediv 1000)

/-- The opportunistic cleanup loop: delete every entry whose
`resetTime` is older than `windowStart`. -/
def purge (store : List (String × RateData)) (windowStart : Int) :
    List (String × RateData) :=
  store.filter (fun e => !decide (e.2.resetTime < windowStart))

/-- One admission check of the `rateLimit` middleware for a truthy
client key, returning the updated `requestStore` and the outcome.
When the key was already present, `clientData` aliases the stored
object in the source, so the reset and the increment persist in the
store even on the early-return rejection path; when the key was
absent, the fresh object only enters the store via the final
`requestStore.set`, which the rejection path skips. -/
def rateLimitStep (cfg : RateLimitConfig) (store : List (String × RateData))
    (k : String) (now : Int) : List (String × RateData) × RLResult :=
  let windowStart := now - cfg.windowMs
  let store1 := purge store windowStart
  let existing := mapGet store1 k
  let d0 := existing.getD { count := 0, resetTime := now }
  let d1 := if d0.resetTime < windowStart then { count := 0, resetTime := now } else d0
  let d2 : RateData := { count := d1.count + 1, resetTime := d1.resetTime }
  if d2.count > cfg.maxRequests then
    (match existing with
      | some _ => mapSet store1 k d2
      | none => store1,
     RLResult.rejected (jsCeilDivThousand (d2.resetTime + cfg.windowMs - now)))
  else
    (mapSet store1 k d2, RLResult.admitted)

/-- JavaScript truthiness of an optional string (absent and empty are
falsy). -/
def jsStrTruthy : Option String → Bool
  | none => false
  | some s => !(s == "")

/-- `req.ip || req.socket.remoteAddress`. -/
def deriveKey (ip remoteAddress : Option String) : Option String :=
  if jsStrTruthy ip then ip else remoteAddress

/-- The full middleware body: derive the client key; on a falsy key
call `next()` without touching the store, otherwise run the admission
check. -/
def rateLimitCheck (cfg : RateLimitConfig) (store : List (String × RateData))
    (ip remoteAddress : Option String) (now : Int) :
    List (String × RateData) × RLResult :=
  match deriveKey ip remoteAddress with
  | none => (store, RLResult.admitted)
  | some k => if k = "" then (store, RLResult.admitted) else rateLimitStep cfg store k now

/-! ### Association-list lemmas -/

theorem mapGet_mapSet_self {α : Type} (m : List (String × α)) (k : String) (v : α) :
    mapGet (mapSet m k v) k = some v := by
  induction m with
  | nil => simp [mapSet, mapGet]
  | cons p rest ih =>
      obtain ⟨k₀, v₀⟩ := p
      by_cases h : k₀ = k <;> simp [mapSet, mapGet, h, ih]

theorem mapGet_mapSet_ne {α : Type} (m : List (String × α)) (k k₁ : String) (v : α)
    (h : k ≠ k₁) : mapGet (mapSet m k v) k₁ = mapGet m k₁ := by
  induction m with
  | nil => simp [mapSet, mapGet, h]
  | cons p rest ih =>
      obtain ⟨k₀, v₀⟩ := p
      by_cases h₀ : k₀ = k
      · subst h₀; simp [mapSet, mapGet, h, ih]
      · simp [mapSet, mapGet, h₀, ih]

theorem fst_mapUpdate {α : Type} (m : List (String × α)) (k : String) (f : α → α) :
    (mapUpdate m k f).map Prod.fst = m.map Prod.fst := by
  induction m with
  | nil => rfl
  | cons p rest ih =>
      obtain ⟨k₀, v₀⟩ := p
      by_cases h : k₀ = k <;> simp [mapUpdate, h, ih]

theorem mapGet_mapUpdate {α : Type} (m : List (String × α)) (k : String) (f : α → α)
    (k₁ : String) :
    mapGet (mapUpdate m k f) k₁ =
      if k = k₁ then (mapGet m k₁).map f else mapGet m k₁ := by
  induction m with
  | nil => by_cases h : k = k₁ <;> simp [mapUpdate, mapGet, h]
  | cons p rest ih =>
      obtain ⟨k₀, v₀⟩ := p
      by_cases h₀ : k₀ = k
      · subst h₀
        by_cases h₁ : k₀ = k₁ <;> simp [mapUpdate, mapGet, h₁, ih]
      · by_cases h₁ : k₀ = k₁
        · subst h₁
          have : k ≠ k₀ := fun hkk => h₀ hkk.symm
          simp [mapUpdate, mapGet, h₀, this]
        · simp [mapUpdate, mapGet, h₀, h₁, ih]

theorem mem_fst_mapSet {α : Type} (m : List (String × α)) (k : String) (v : α)
    (n : String) :
    n ∈ (mapSet m k v).map Prod.fst ↔ n = k ∨ n ∈ m.map Prod.fst := by
  induction m with
  | nil => simp [mapSet]
  | cons p rest ih =>
      obtain ⟨k₀, v₀⟩ := p
      by_cases h : k₀ = k
      · subst h; simp [mapSet]
      · simp [mapSet, h, ih]; tauto

theorem mapGet_eq_none_iff {α : Type} (m : List (String × α)) (k : String) :
    mapGet m k = none ↔ k ∉ m.map Prod.fst := by
  induction m with
  | nil => simp [mapGet]
  | cons p rest ih =>
      obtain ⟨k₀, v₀⟩ := p
      by_cases h : k₀ = k
      · subst h; simp [mapGet]
      · simp only [mapGet, if_neg h, List.map_cons, List.mem_cons, ih]
        constructor
        · intro hk hor
          rcases hor with h1 | h2
          · exact h h1.symm
          · exact hk h2
        · intro hk h2
          exact hk (Or.inr h2)

theorem mapGet_isSome_of_mem_fst {α : Type} (m : List (String × α)) (k : String)
    (h : k ∈ m.map Prod.fst) : ∃ v, mapGet m k = some v := by
  cases hg : mapGet m k with
  | none => exact absurd h ((mapGet_eq_none_iff m k).mp hg)
  | some v => exact ⟨v, rfl⟩

theorem mem_of_mapGet_eq_some {α : Type} (m : List (String × α)) (k : String) (v : α)
    (h : mapGet m k = some v) : (k, v) ∈ m := by
  induction m with
  | nil => simp [mapGet] at h
  | cons p rest ih =>
      obtain ⟨k₀, v₀⟩ := p
      by_cases h₀ : k₀ = k
      · subst h₀
        simp [mapGet] at h
        subst h
        exact List.mem_cons_self _ _
      · simp [mapGet, h₀] at h
        exact List.mem_cons_of_mem _ (ih h)

/-! ### Key set of the merge -/

theorem mem_fst_buildBase_foldl (s : List SchemaEntry) (m : List (String × Achievement))
    (n : String) :
    n ∈ (s.foldl (fun m ach => mapSet m ach.name (mkBaseAchievement ach)) m).map Prod.fst ↔
      n ∈ m.map Prod.fst ∨ n ∈ s.map SchemaEntry.name := by
  induction s generalizing m with
  | nil => simp
  | cons ach s ih =>
      simp only [List.foldl_cons, List.map_cons, List.mem_cons, ih, mem_fst_mapSet]
      tauto

theorem mem_fst_buildBase (s : List SchemaEntry) (n : String) :
    n ∈ (buildBase s).map Prod.fst ↔ n ∈ s.map SchemaEntry.name := by
  simpa [buildBase] using mem_fst_buildBase_foldl s [] n

theorem fst_applyGlobal (m : List (String × Achievement)) (g : List GlobalEntry) :
    (applyGlobal m g).map Prod.fst = m.map Prod.fst := by
  induction g generalizing m with
  | nil => rfl
  | cons e g ih => simp only [applyGlobal, List.foldl_cons] at ih ⊢
                   rw [ih, fst_mapUpdate]

theorem fst_applyUser (m : List (String × Achievement)) (u : List UserEntry) :
    (applyUser m u).map Prod.fst = m.map Prod.fst := by
  induction u generalizing m with
  | nil => rfl
  | cons e u ih => simp only [applyUser, List.foldl_cons] at ih ⊢
                   rw [ih, fst_mapUpdate]

/-- Every stored record carries its own key in its `apiName` field. -/
def KeysConsistent (m : List (String × Achievement)) : Prop :=
  ∀ p ∈ m, (p.2).apiName = p.1

theorem keysConsistent_mapSet (m : List (String × Achievement)) (k : String)
    (v : Achievement) (hm : KeysConsistent m) (hv : v.apiName = k) :
    KeysConsistent (mapSet m k v) := by
  induction m with
  | nil => intro p hp; simp [mapSet] at hp; subst hp; exact hv
  | cons q rest ih =>
      obtain ⟨k₀, v₀⟩ := q
      have hrest : KeysConsistent rest := fun p hp => hm p (List.mem_cons_of_mem _ hp)
      by_cases h : k₀ = k
      · subst h
        intro p hp
        simp [mapSet] at hp
        rcases hp with hp | hp
        · subst hp; exact hv
        · exact hm p (List.mem_cons_of_mem _ hp)
      · intro p hp
        simp only [mapSet, if_neg h, List.mem_cons] at hp
        rcases hp with hp | hp
        · subst hp; exact hm _ (List.mem_cons_self _ _)
        · exact ih hrest p hp

theorem keysConsistent_mapUpdate (m : List (String × Achievement)) (k : String)
    (f : Achievement → Achievement) (hm : KeysConsistent m)
    (hf : ∀ a, (f a).apiName = a.apiName) : KeysConsistent (mapUpdate m k f) := by
  induction m with
  | nil => intro p hp; simp [mapUpdate] at hp
  | cons q rest ih =>
      obtain ⟨k₀, v₀⟩ := q
      have hrest : KeysConsistent rest := fun p hp => hm p (List.mem_cons_of_mem _ hp)
      by_cases h : k₀ = k
      · intro p hp
        simp only [mapUpdate, if_pos h, List.mem_cons] at hp
        rcases hp with hp | hp
        · subst hp
          simpa [hf] using hm _ (List.mem_cons_self _ _)
        · exact hm p (List.mem_cons_of_mem _ hp)
      · intro p hp
        simp only [mapUpdate, if_neg h, List.mem_cons] at hp
        rcases hp with hp | hp
        · subst hp; exact hm _ (List.mem_cons_self _ _)
        · exact ih hrest p hp

theorem keysConsistent_buildBase (s : List SchemaEntry) : KeysConsistent (buildBase s) := by
  suffices h : ∀ m, KeysConsistent m →
      KeysConsistent (s.foldl (fun m ach => mapSet m ach.name (mkBaseAchievement ach)) m) by
    exact h [] (by intro p hp; simp at hp)
  induction s with
  | nil => intro m hm; exact hm
  | cons ach s ih =>
      intro m hm
      exact ih _ (keysConsistent_mapSet m ach.name _ hm rfl)

theorem keysConsistent_applyGlobal (m : List (String × Achievement))
    (g : List GlobalEntry) (hm : KeysConsistent m) : KeysConsistent (applyGlobal m g) := by
  induction g generalizing m with
  | nil => exact hm
  | cons e g ih =>
      simp only [applyGlobal, List.foldl_cons] at ih ⊢
      exact ih _ (keysConsistent_mapUpdate m e.name _ hm (fun a => rfl))

theorem keysConsistent_applyUser (m : List (String × Achievement))
    (u : List UserEntry) (hm : KeysConsistent m) : KeysConsistent (applyUser m u) := by
  induction u generalizing m with
  | nil => exact hm
  | cons e u ih =>
      simp only [applyUser, List.foldl_cons] at ih ⊢
      exact ih _ (keysConsistent_mapUpdate m e.apiname _ hm (fun a => rfl))

theorem keysConsistent_mergeMap (u : List UserEntry) (g : List GlobalEntry)
    (s : List SchemaEntry) :
    KeysConsistent (applyUser (applyGlobal (buildBase s) g) u) :=
  keysConsistent_applyUser _ u (keysConsistent_applyGlobal _ g (keysConsistent_buildBase s))

theorem map_apiName_map_snd (m : List (String × Achievement)) (hm : KeysConsistent m) :
    (m.map Prod.snd).map Achievement.apiName = m.map Prod.fst := by
  induction m with
  | nil => rfl
  | cons p rest ih =>
      have h0 : (p.2).apiName = p.1 := hm p (List.mem_cons_self _ _)
      have hrest : KeysConsistent rest := fun q hq => hm q (List.mem_cons_of_mem _ hq)
      simp [h0, ih hrest]

/-- C1: the key set of the merged output is exactly the schema name
set, whatever the global-stats and user-stats lists contain. -/
theorem transformAchievementsData_keySet (u : List UserEntry) (g : List GlobalEntry)
    (s : List SchemaEntry) (n : String) :
    n ∈ (transformAchievementsData u g s).map Achievement.apiName ↔
      n ∈ s.map SchemaEntry.name := by
  unfold transformAchievementsData
  rw [map_apiName_map_snd _ (keysConsistent_mergeMap u g s), fst_applyUser,
    fst_applyGlobal, mem_fst_buildBase]

/-! ### Per-key value of the merge -/

theorem mapGet_foldl_mapUpdate {α β : Type} (keyOf : β → String) (fOf : β → α → α)
    (l : List β) (m : List (String × α)) (k : String) :
    mapGet (l.foldl (fun m e => mapUpdate m (keyOf e) (fOf e)) m) k =
      (mapGet m k).map
        (fun a => l.foldl (fun a e => if keyOf e = k then fOf e a else a) a) := by
  induction l generalizing m with
  | nil => cases hm : mapGet m k <;> simp [hm]
  | cons e l ih =>
      simp only [List.foldl_cons]
      rw [ih, mapGet_mapUpdate]
      by_cases h : keyOf e = k
      · cases hm : mapGet m k with
        | none => simp [h]
        | some a => simp [h]
      · cases hm : mapGet m k with
        | none => simp [h]
        | some a => simp [h]

theorem mapGet_applyGlobal (m : List (String × Achievement)) (g : List GlobalEntry)
    (k : String) :
    mapGet (applyGlobal m g) k =
      (mapGet m k).map
        (fun a => g.foldl (fun a e => if e.name = k then setGlobal e a else a) a) :=
  mapGet_foldl_mapUpdate GlobalEntry.name setGlobal g m k

theorem mapGet_applyUser (m : List (String × Achievement)) (u : List UserEntry)
    (k : String) :
    mapGet (applyUser m u) k =
      (mapGet m k).map
        (fun a => u.foldl (fun a e => if e.apiname = k then setUser e a else a) a) :=
  mapGet_foldl_mapUpdate UserEntry.apiname setUser u m k

theorem foldl_overlay_of_forall_ne {α β : Type} (keyOf : β → String) (fOf : β → α → α)
    (l : List β) (k : String) (hne : ∀ e ∈ l, keyOf e ≠ k) (a : α) :
    l.foldl (fun a e => if keyOf e = k then fOf e a else a) a = a := by
  induction l generalizing a with
  | nil => rfl
  | cons e l ih =>
      have h := hne e (List.mem_cons_self _ _)
      simp only [List.foldl_cons, if_neg h]
      exact ih (fun x hx => hne x (List.mem_cons_of_mem _ hx)) a

/-- Under pairwise-distinct keys, the overlay pass touches the record
at key `k` through at most one list entry: the one `find?` locates. -/
theorem foldl_overlay_nodup {α β : Type} (keyOf : β → String) (fOf : β → α → α)
    (l : List β) (k : String) (hnd : (l.map keyOf).Nodup) (a : α) :
    l.foldl (fun a e => if keyOf e = k then fOf e a else a) a =
      match l.find? (fun e => keyOf e == k) with
      | some e => fOf e a
      | none => a := by
  induction l generalizing a with
  | nil => rfl
  | cons e l ih =>
      have hnd' : (l.map keyOf).Nodup := (List.nodup_cons.mp hnd).2
      have hmem : keyOf e ∉ l.map keyOf := (List.nodup_cons.mp hnd).1
      by_cases h : keyOf e = k
      · have hfind : (e :: l).find? (fun e => keyOf e == k) = some e :=
          List.find?_cons_of_pos _ (by simp [h])
        have hne : ∀ x ∈ l, keyOf x ≠ k := by
          intro x hx hxk
          exact hmem (by rw [h, ← hxk]; exact List.mem_map_of_mem keyOf hx)
        simp only [List.foldl_cons, if_pos h, hfind]
        exact foldl_overlay_of_forall_ne keyOf fOf l k hne (fOf e a)
      · have hfind : (e :: l).find? (fun e => keyOf e == k) =
            l.find? (fun e => keyOf e == k) :=
          List.find?_cons_of_neg _ (by simp [h])
        simp only [List.foldl_cons, if_neg h, hfind]
        exact ih hnd' a

theorem mem_mapSet {α : Type} (m : List (String × α)) (k : String) (v : α)
    (p : String × α) (hp : p ∈ mapSet m k v) : p = (k, v) ∨ p ∈ m := by
  induction m with
  | nil => simpa [mapSet] using hp
  | cons q rest ih =>
      obtain ⟨k₀, v₀⟩ := q
      by_cases h : k₀ = k
      · subst h
        rcases List.mem_cons.mp (by simpa [mapSet] using hp) with h1 | h1
        · exact Or.inl h1
        · exact Or.inr (List.mem_cons_of_mem _ h1)
      · rcases List.mem_cons.mp (by simpa [mapSet, h] using hp) with h1 | h1
        · exact Or.inr (by simp [h1])
        · rcases ih h1 with h2 | h2
          · exact Or.inl h2
          · exact Or.inr (List.mem_cons_of_mem _ h2)

theorem buildBase_values (s : List SchemaEntry) :
    ∀ p ∈ buildBase s, ∃ ach, ach ∈ s ∧ p.2 = mkBaseAchievement ach := by
  suffices h : ∀ m p, p ∈ s.foldl (fun m ach => mapSet m ach.name (mkBaseAchievement ach)) m →
      p ∈ m ∨ ∃ ach, ach ∈ s ∧ p.2 = mkBaseAchievement ach by
    intro p hp
    rcases h [] p hp with h1 | h1
    · simp at h1
    · exact h1
  induction s with
  | nil => intro m p hp; exact Or.inl hp
  | cons a0 s ih =>
      intro m p hp
      rcases ih _ p hp with h1 | h1
      · rcases mem_mapSet _ _ _ p h1 with h2 | h2
        · exact Or.inr ⟨a0, List.mem_cons_self _ _, by rw [h2]⟩
        · exact Or.inl h2
      · obtain ⟨ach, hs, he⟩ := h1
        exact Or.inr ⟨ach, List.mem_cons_of_mem _ hs, he⟩

theorem mapGet_buildBase_of_mem (s : List SchemaEntry) (k : String)
    (hk : k ∈ s.map SchemaEntry.name) :
    ∃ ach, ach ∈ s ∧ ach.name = k ∧
      mapGet (buildBase s) k = some (mkBaseAchievement ach) := by
  obtain ⟨b, hb⟩ := mapGet_isSome_of_mem_fst (buildBase s) k
    ((mem_fst_buildBase s k).mpr hk)
  have hmem : (k, b) ∈ buildBase s := mem_of_mapGet_eq_some _ _ _ hb
  obtain ⟨ach, hs, he⟩ := buildBase_values s _ hmem
  have he' : b = mkBaseAchievement ach := he
  have hb' : b.apiName = k := keysConsistent_buildBase s _ hmem
  have hn : ach.name = k := by rw [he'] at hb'; exact hb'
  exact ⟨ach, hs, hn, by rw [hb, he']⟩

theorem findByApi_map_snd (m : List (String × Achievement)) (hm : KeysConsistent m)
    (k : String) : findByApi (m.map Prod.snd) k = mapGet m k := by
  induction m with
  | nil => rfl
  | cons p rest ih =>
      have h0 : p.2.apiName = p.1 := hm p (List.mem_cons_self _ _)
      have hrest : KeysConsistent rest := fun q hq => hm q (List.mem_cons_of_mem _ hq)
      by_cases h : p.1 = k
      · simp [findByApi, mapGet, List.find?_cons_of_pos, h0, h]
      · have hb : (p.2.apiName == k) = false := by simp [h0, h]
        calc findByApi ((p :: rest).map Prod.snd) k
            = findByApi (rest.map Prod.snd) k := by
              simp [findByApi, List.find?_cons_of_neg, hb]
          _ = mapGet rest k := ih hrest
          _ = mapGet (p :: rest) k := by
              cases p with
              | mk k₀ v₀ => simp [mapGet, h]

/-- The record the merge emits for a schema key `k`, expressed as the
base record with both overlay passes folded over it. -/
theorem findByApi_transform_eq (u : List UserEntry) (g : List GlobalEntry)
    (s : List SchemaEntry) (k : String) (hk : k ∈ s.map SchemaEntry.name) :
    ∃ ach, ach ∈ s ∧ ach.name = k ∧
      findByApi (transformAchievementsData u g s) k =
        some (u.foldl (fun a e => if e.apiname = k then setUser e a else a)
          (g.foldl (fun a e => if e.name = k then setGlobal e a else a)
            (mkBaseAchievement ach))) := by
  obtain ⟨ach, hs, hname, hget⟩ := mapGet_buildBase_of_mem s k hk
  refine ⟨ach, hs, hname, ?_⟩
  unfold transformAchievementsData
  rw [findByApi_map_snd _ (keysConsistent_mergeMap u g s) k,
    mapGet_applyUser, mapGet_applyGlobal, hget]
  rfl

theorem foldl_userOverlay_globalPercentage (u : List UserEntry) (k : String)
    (a : Achievement) :
    (u.foldl (fun a e => if e.apiname = k then setUser e a else a) a).globalPercentage =
      a.globalPercentage := by
  induction u generalizing a with
  | nil => rfl
  | cons e u ih =>
      by_cases h : e.apiname = k
      · simp only [List.foldl_cons, if_pos h]
        rw [ih]
        rfl
      · simp only [List.foldl_cons, if_neg h]
        exact ih a

theorem foldl_globalOverlay_userFields (g : List GlobalEntry) (k : String)
    (a : Achievement) :
    (g.foldl (fun a e => if e.name = k then setGlobal e a else a) a).unlocked =
        a.unlocked ∧
      (g.foldl (fun a e => if e.name = k then setGlobal e a else a) a).unlockTime =
        a.unlockTime := by
  induction g generalizing a with
  | nil => exact ⟨rfl, rfl⟩
  | cons e g ih =>
      by_cases h : e.name = k
      · simp only [List.foldl_cons, if_pos h]
        exact ih (setGlobal e a)
      · simp only [List.foldl_cons, if_neg h]
        exact ih a

/-- Sample schema entry used to instantiate the merge theorems. -/
def sampleSchemaA : SchemaEntry :=
  { name := "ACH_A", displayName := "Ach A", description := "First one"
    icon := "iconA", icongray := "iconAgray", hidden := 0 }

/-- Sample global percentage entry for the same key. -/
def sampleGlobalA : GlobalEntry := { name := "ACH_A", percent := 10 }

/-- C7: for a schema key, `globalPercentage` is the global-stats value
when that list has an entry for the key (keys assumed pairwise
distinct there) and `0` otherwise. -/
theorem transformAchievementsData_globalPercentage (u : List UserEntry)
    (g : List GlobalEntry) (s : List SchemaEntry) (k : String)
    (hnd : (g.map GlobalEntry.name).Nodup) (hk : k ∈ s.map SchemaEntry.name) :
    ∃ a, findByApi (transformAchievementsData u g s) k = some a ∧
      a.globalPercentage =
        match g.find? (fun e => e.name == k) with
        | some e => e.percent
        | none => 0 := by
  obtain ⟨ach, _, _, heq⟩ := findByApi_transform_eq u g s k hk
  refine ⟨_, heq, ?_⟩
  rw [foldl_userOverlay_globalPercentage,
    foldl_overlay_nodup GlobalEntry.name setGlobal g k hnd]
  cases hfind : g.find? (fun e => e.name == k) <;> rfl

theorem transformAchievementsData_globalPercentage_witness :
    ([sampleGlobalA].map GlobalEntry.name).Nodup ∧
      "ACH_A" ∈ [sampleSchemaA].map SchemaEntry.name ∧
      (∃ a, findByApi (transformAchievementsData [] [sampleGlobalA] [sampleSchemaA])
            "ACH_A" = some a ∧
        a.globalPercentage =
          match [sampleGlobalA].find? (fun e => e.name == "ACH_A") with
          | some e => e.percent
          | none => 0) :=
  ⟨by decide, by decide,
    transformAchievementsData_globalPercentage [] [sampleGlobalA] [sampleSchemaA]
      "ACH_A" (by decide) (by decide)⟩

/-- C2 (amended): `unlocked` is true exactly when the user-stats entry
for the key has achieved flag `1`; `unlockTime` is set exactly when
that entry has a present, non-zero unlock time — the achieved flag is
not consulted for `unlockTime` (user-stats keys assumed pairwise
distinct). -/
theorem transformAchievementsData_unlock (u : List UserEntry) (g : List GlobalEntry)
    (s : List SchemaEntry) (k : String)
    (hnd : (u.map UserEntry.apiname).Nodup) (hk : k ∈ s.map SchemaEntry.name) :
    ∃ a, findByApi (transformAchievementsData u g s) k = some a ∧
      (a.unlocked = true ↔ ∃ e, e ∈ u ∧ e.apiname = k ∧ e.achieved = 1) ∧
      (a.unlockTime.isSome = true ↔
        ∃ e, e ∈ u ∧ e.apiname = k ∧ e.unlocktime.getD 0 ≠ 0) := by
  obtain ⟨ach, _, _, heq⟩ := findByApi_transform_eq u g s k hk
  refine ⟨_, heq, ?_⟩
  set a0 := g.foldl (fun a e => if e.name = k then setGlobal e a else a)
    (mkBaseAchievement ach) with ha0
  have hu0 : a0.unlocked = false :=
    (foldl_globalOverlay_userFields g k (mkBaseAchievement ach)).1
  have ht0 : a0.unlockTime = none :=
    (foldl_globalOverlay_userFields g k (mkBaseAchievement ach)).2
  rw [foldl_overlay_nodup UserEntry.apiname setUser u k hnd]
  cases hfind : u.find? (fun e => e.apiname == k) with
  | none =>
      have hforall : ∀ x ∈ u, x.apiname ≠ k := by
        intro x hx
        have := List.find?_eq_none.mp hfind x hx
        simpa using this
      refine ⟨⟨fun h => ?_, fun h => ?_⟩, ⟨fun h => ?_, fun h => ?_⟩⟩
      · have h' : a0.unlocked = true := h
        rw [hu0] at h'
        exact Bool.noConfusion h'
      · obtain ⟨e, he, hek, _⟩ := h
        exact absurd hek (hforall e he)
      · have h' : a0.unlockTime.isSome = true := h
        rw [ht0] at h'
        simp at h'
      · obtain ⟨e, he, hek, _⟩ := h
        exact absurd hek (hforall e he)
  | some e =>
      have he_mem : e ∈ u := List.mem_of_find?_eq_some hfind
      have he_k : e.apiname = k := by
        have := List.find?_some hfind
        simpa using this
      have huniq : ∀ x, x ∈ u → x.apiname = k → x = e := fun x hx hxk =>
        List.inj_on_of_nodup_map hnd hx he_mem (by rw [hxk, he_k])
      refine ⟨⟨fun h => ?_, fun h => ?_⟩, ⟨fun h => ?_, fun h => ?_⟩⟩
      · refine ⟨e, he_mem, he_k, ?_⟩
        have h1 : (e.achieved == 1) = true := h
        simpa using h1
      · obtain ⟨x, hx, hxk, hx1⟩ := h
        have hxe := huniq x hx hxk
        rw [hxe] at hx1
        show (setUser e a0).unlocked = true
        simp [setUser, hx1]
      · have h' : (jsNumOrUndef e.unlocktime).isSome = true := h
        refine ⟨e, he_mem, he_k, ?_⟩
        cases ht : e.unlocktime with
        | none => rw [ht] at h'; simp [jsNumOrUndef] at h'
        | some n =>
            rw [ht] at h'
            by_cases hn : n = 0
            · simp [jsNumOrUndef, hn] at h'
            · simpa using hn
      · obtain ⟨x, hx, hxk, hxt⟩ := h
        have hxe := huniq x hx hxk
        rw [hxe] at hxt
        show (setUser e a0).unlockTime.isSome = true
        cases ht : e.unlocktime with
        | none => rw [ht] at hxt; simp at hxt
        | some n =>
            rw [ht] at hxt
            simp only [Option.getD_some] at hxt
            simp [setUser, jsNumOrUndef, ht, hxt]

theorem transformAchievementsData_unlock_witness :
    (([{ apiname := "ACH_A", achieved := 1, unlocktime := some 1700000000 }] :
        List UserEntry).map UserEntry.apiname).Nodup ∧
      "ACH_A" ∈ [sampleSchemaA].map SchemaEntry.name ∧
      (∃ a, findByApi (transformAchievementsData
            [{ apiname := "ACH_A", achieved := 1, unlocktime := some 1700000000 }]
            [] [sampleSchemaA]) "ACH_A" = some a ∧
        (a.unlocked = true ↔ ∃ e,
          e ∈ ([{ apiname := "ACH_A", achieved := 1, unlocktime := some 1700000000 }] :
            List UserEntry) ∧ e.apiname = "ACH_A" ∧ e.achieved = 1) ∧
        (a.unlockTime.isSome = true ↔ ∃ e,
          e ∈ ([{ apiname := "ACH_A", achieved := 1, unlocktime := some 1700000000 }] :
            List UserEntry) ∧ e.apiname = "ACH_A" ∧ e.unlocktime.getD 0 ≠ 0)) :=
  ⟨by decide, by decide,
    transformAchievementsData_unlock
      [{ apiname := "ACH_A", achieved := 1, unlocktime := some 1700000000 }]
      [] [sampleSchemaA] "ACH_A" (by decide) (by decide)⟩

/-- C2 counterexample to the claim as stated: a user-stats entry with
achieved flag `0` but non-zero unlock time yields a record with
`unlocked = false` and `unlockTime` set, so `unlockTime` being set
does not imply `unlocked`. -/
theorem transformAchievementsData_unlockTime_counterexample :
    (findByApi (transformAchievementsData
        [{ apiname := "ACH_A", achieved := 0, unlocktime := some 77 }] []
        [sampleSchemaA]) "ACH_A").map (fun a => (a.unlocked, a.unlockTime)) =
      some (false, some 77) := by decide

/-! ### Commutativity of the two overlay passes -/

theorem setGlobal_setUser_comm (g : GlobalEntry) (u : UserEntry) (a : Achievement) :
    setGlobal g (setUser u a) = setUser u (setGlobal g a) := rfl

theorem mapUpdate_mapUpdate_comm {α : Type} (m : List (String × α)) (k k₁ : String)
    (f f₁ : α → α) (h : ∀ a, f (f₁ a) = f₁ (f a)) :
    mapUpdate (mapUpdate m k f) k₁ f₁ = mapUpdate (mapUpdate m k₁ f₁) k f := by
  induction m with
  | nil => rfl
  | cons p rest ih =>
      obtain ⟨k₀, v₀⟩ := p
      by_cases h0 : k₀ = k <;> by_cases h1 : k₀ = k₁
      · subst h0; subst h1
        simp [mapUpdate, h v₀]
      · subst h0
        simp [mapUpdate, h1]
      · subst h1
        simp [mapUpdate, h0]
      · simp [mapUpdate, h0, h1, ih]

theorem applyUser_mapUpdate (m : List (String × Achievement)) (u : List UserEntry)
    (k : String) (f : Achievement → Achievement)
    (hcomm : ∀ ue a, f (setUser ue a) = setUser ue (f a)) :
    applyUser (mapUpdate m k f) u = mapUpdate (applyUser m u) k f := by
  induction u generalizing m with
  | nil => rfl
  | cons ue u ih =>
      simp only [applyUser, List.foldl_cons]
      rw [mapUpdate_mapUpdate_comm m k ue.apiname f (setUser ue) (hcomm ue)]
      exact ih _

theorem applyGlobal_applyUser_comm (m : List (String × Achievement))
    (g : List GlobalEntry) (u : List UserEntry) :
    applyGlobal (applyUser m u) g = applyUser (applyGlobal m g) u := by
  induction g generalizing m with
  | nil => rfl
  | cons ge g ih =>
      simp only [applyGlobal, List.foldl_cons]
      rw [← applyUser_mapUpdate m u ge.name (setGlobal ge)
        (fun ue a => setGlobal_setUser_comm ge ue a)]
      exact ih _

/-- C8: running the user-stats overlay before the global-stats overlay
produces exactly the same output list as the implemented order,
because the two passes mutate disjoint fields of each record. -/
theorem transformAchievementsData_overlay_comm (u : List UserEntry)
    (g : List GlobalEntry) (s : List SchemaEntry) :
    transformAchievementsDataSwapped u g s = transformAchievementsData u g s := by
  unfold transformAchievementsData transformAchievementsDataSwapped
  rw [applyGlobal_applyUser_comm]

/-! ### Fail-soft achievement fetch, game transformer, summary -/

/-- A typical network failure as produced by `handleSteamError`. -/
def sampleError : SteamAPIError :=
  { message := "Network error contacting Steam API", statusCode := some 503
    steamErrorCode := none }

/-- C4: when any one of the three upstream fetches fails, the whole
operation resolves to the empty achievement list; no partial merge of
the successful sources is produced. -/
theorem getGameAchievements_fail (us : Except SteamAPIError PlayerAchievementsResponse)
    (gs : Except SteamAPIError GlobalAchievementsResponse)
    (sc : Except SteamAPIError SchemaForGameResponse)
    (h : (∃ e, us = Except.error e) ∨ (∃ e, gs = Except.error e) ∨
      (∃ e, sc = Except.error e)) :
    getGameAchievements us gs sc = [] := by
  rcases h with ⟨e, he⟩ | ⟨e, he⟩ | ⟨e, he⟩
  · subst he; cases gs <;> cases sc <;> rfl
  · subst he; cases us <;> cases sc <;> rfl
  · subst he; cases us <;> cases gs <;> rfl

theorem getGameAchievements_fail_witness :
    ((∃ e, (Except.error sampleError :
        Except SteamAPIError PlayerAchievementsResponse) = Except.error e) ∨
      (∃ e, (Except.ok ⟨none⟩ :
        Except SteamAPIError GlobalAchievementsResponse) = Except.error e) ∨
      (∃ e, (Except.ok ⟨none⟩ :
        Except SteamAPIError SchemaForGameResponse) = Except.error e)) ∧
      getGameAchievements (Except.error sampleError) (Except.ok ⟨none⟩)
        (Except.ok ⟨none⟩) = [] :=
  ⟨Or.inl ⟨sampleError, rfl⟩,
    getGameAchievements_fail (Except.error sampleError) (Except.ok ⟨none⟩)
      (Except.ok ⟨none⟩) (Or.inl ⟨sampleError, rfl⟩)⟩

/-- C5 (amended): `lastPlayed` is produced exactly when the upstream
epoch-seconds value is present, zero included; a present zero yields
the epoch timestamp. -/
theorem transformGameData_lastPlayed (g : SteamGame) :
    (transformGameData g).lastPlayed = g.rtime_last_played.map (fun t => t * 1000) := by
  cases h : g.rtime_last_played <;> simp [transformGameData, h]

/-- A raw game whose upstream last-played value is present and zero. -/
def sampleGameZero : SteamGame :=
  { appid := 440, name := "Sample", playtime_forever := 12, playtime_2weeks := none
    img_icon_url := "hashvalue", has_community_visible_stats := true
    rtime_last_played := some 0 }

/-- C5 counterexample to the claim as stated: a present zero
last-played value produces the zero/epoch timestamp instead of no
value. -/
theorem transformGameData_lastPlayed_counterexample :
    (transformGameData sampleGameZero).lastPlayed = some 0 ∧
      (transformGameData sampleGameZero).lastPlayed ≠ none := by
  exact ⟨rfl, by decide⟩

/-- C6: the summary reported by the achievements endpoint counts the
list and its unlocked records exactly, and its percentage satisfies
the division-free characterization with no division by zero. -/
theorem achievementsSummary_spec (l : List Achievement) :
    (achievementsSummary l).total = l.length ∧
      (achievementsSummary l).unlocked = (l.filter (fun a => a.unlocked)).length ∧
      (l.length = 0 → (achievementsSummary l).percentage = 0) ∧
      (0 < l.length →
        (achievementsSummary l).percentage * (l.length : Rat) =
          ((l.filter (fun a => a.unlocked)).length : Rat) * 100) := by
  refine ⟨rfl, rfl, fun h => ?_, fun h => ?_⟩
  · simp [achievementsSummary, h]
  · have h0 : l.length ≠ 0 := Nat.pos_iff_ne_zero.mp h
    have hne : (l.length : Rat) ≠ 0 := by exact_mod_cast h0
    simp only [achievementsSummary, if_pos h]
    field_simp

/-- An unlocked sample record for the summary witness. -/
def sampleUnlockedRecord : Achievement :=
  { apiName := "ACH_B", name := "Ach B", description := "Second one"
    icon := { default := "iconB", achieved := "iconBgray" }
    globalPercentage := 25, unlocked := true, unlockTime := some 1700000000
    platform := "steam", hidden := false }

/-- A locked sample record for the summary witness. -/
def sampleLockedRecord : Achievement :=
  { apiName := "ACH_C", name := "Ach C", description := "Third one"
    icon := { default := "iconC", achieved := "iconCgray" }
    globalPercentage := 5, unlocked := false, unlockTime := none
    platform := "steam", hidden := false }

theorem achievementsSummary_spec_witness :
    0 < ([sampleUnlockedRecord, sampleLockedRecord] : List Achievement).length ∧
      (achievementsSummary [sampleUnlockedRecord, sampleLockedRecord]).percentage *
          (([sampleUnlockedRecord, sampleLockedRecord] : List Achievement).length : Rat) =
        ((([sampleUnlockedRecord, sampleLockedRecord] : List Achievement).filter
            (fun a => a.unlocked)).length : Rat) * 100 :=
  ⟨by decide,
    (achievementsSummary_spec [sampleUnlockedRecord, sampleLockedRecord]).2.2.2
      (by decide)⟩

/-- C10: an owned-games reply whose `response` object or `games` array
is absent yields the empty game list. -/
theorem getUserGames_no_games (data : OwnedGamesResponse)
    (h : data.response = none ∨ ∃ b, data.response = some b ∧ b.games = none) :
    getUserGames data = [] := by
  rcases h with h | ⟨b, hb, hg⟩
  · simp [getUserGames, h]
  · simp [getUserGames, hb, hg]

theorem getUserGames_no_games_witness :
    ((⟨none⟩ : OwnedGamesResponse).response = none ∨
      ∃ b, (⟨none⟩ : OwnedGamesResponse).response = some b ∧ b.games = none) ∧
      getUserGames ⟨none⟩ = [] :=
  ⟨Or.inl rfl, getUserGames_no_games ⟨none⟩ (Or.inl rfl)⟩

/-- C9: when no client key can be derived, the middleware admits and
returns the store untouched — nothing is created, incremented or
purged. -/
theorem rateLimitCheck_missing_key (cfg : RateLimitConfig)
    (store : List (String × RateData)) (now : Int) :
    rateLimitCheck cfg store none none now = (store, RLResult.admitted) := rfl

/-! ### Rate limiter admission check -/

theorem purge_cons (p : String × RateData) (rest : List (String × RateData)) (ws : Int) :
    purge (p :: rest) ws =
      if p.2.resetTime < ws then purge rest ws else p :: purge rest ws := by
  by_cases h : p.2.resetTime < ws <;> simp [purge, List.filter_cons, h]

theorem mapGet_purge_of_keep (store : List (String × RateData)) (ws : Int) (k : String)
    (d : RateData) (h : mapGet store k = some d) (hk : ¬ d.resetTime < ws) :
    mapGet (purge store ws) k = some d := by
  induction store with
  | nil => simp [mapGet] at h
  | cons p rest ih =>
      obtain ⟨k₀, v₀⟩ := p
      rw [purge_cons]
      by_cases h₀ : k₀ = k
      · subst h₀
        simp only [mapGet, if_pos rfl] at h
        have hv : v₀ = d := by simpa using h
        subst hv
        rw [if_neg hk]
        simp [mapGet]
      · simp only [mapGet, if_neg h₀] at h
        by_cases hv : v₀.resetTime < ws
        · rw [if_pos hv]
          exact ih h
        · rw [if_neg hv]
          simp only [mapGet, if_neg h₀]
          exact ih h

theorem mapGet_purge_none_of_not_mem (store : List (String × RateData)) (ws : Int)
    (k : String) (h : k ∉ store.map Prod.fst) : mapGet (purge store ws) k = none := by
  rw [mapGet_eq_none_iff]
  intro hk
  apply h
  obtain ⟨p, hp, hpk⟩ := List.mem_map.mp hk
  exact hpk ▸ List.mem_map_of_mem Prod.fst (List.mem_of_mem_filter hp)

theorem mapGet_purge_none (store : List (String × RateData)) (ws : Int) (k : String)
    (hnd : (store.map Prod.fst).Nodup)
    (h : mapGet store k = none ∨ ∃ d, mapGet store k = some d ∧ d.resetTime < ws) :
    mapGet (purge store ws) k = none := by
  induction store with
  | nil => simp [purge, mapGet]
  | cons p rest ih =>
      obtain ⟨k₀, v₀⟩ := p
      have hnd₂ : (rest.map Prod.fst).Nodup := (List.nodup_cons.mp (by simpa using hnd)).2
      have hk₀ : k₀ ∉ rest.map Prod.fst := (List.nodup_cons.mp (by simpa using hnd)).1
      rw [purge_cons]
      by_cases h₀ : k₀ = k
      · subst h₀
        rcases h with h | ⟨d, hd, hdws⟩
        · simp [mapGet] at h
        · simp only [mapGet, if_pos rfl] at hd
          have hv : v₀ = d := by simpa using hd
          subst hv
          rw [if_pos hdws]
          exact mapGet_purge_none_of_not_mem rest ws k₀ hk₀
      · have hh : mapGet rest k = none ∨
            ∃ d, mapGet rest k = some d ∧ d.resetTime < ws := by
          rcases h with h | ⟨d, hd, hdws⟩
          · left; simpa [mapGet, h₀] using h
          · right; exact ⟨d, by simpa [mapGet, h₀] using hd, hdws⟩
        by_cases hv : v₀.resetTime < ws
        · rw [if_pos hv]
          exact ih hnd₂ hh
        · rw [if_neg hv]
          simp only [mapGet, if_neg h₀]
          exact ih hnd₂ hh

theorem rateLimitStep_existing (cfg : RateLimitConfig)
    (store : List (String × RateData)) (k : String) (now : Int) (d : RateData)
    (hget : mapGet (purge store (now - cfg.windowMs)) k = some d)
    (hdk : ¬ d.resetTime < now - cfg.windowMs) :
    rateLimitStep cfg store k now =
      (mapSet (purge store (now - cfg.windowMs)) k
          { count := d.count + 1, resetTime := d.resetTime },
        if d.count + 1 > cfg.maxRequests then
          RLResult.rejected (jsCeilDivThousand (d.resetTime + cfg.windowMs - now))
        else RLResult.admitted) := by
  simp only [rateLimitStep]
  rw [hget]
  simp only [Option.getD_some]
  rw [if_neg hdk]
  by_cases hmax : d.count + 1 > cfg.maxRequests
  · rw [if_pos hmax, if_pos hmax]
  · rw [if_neg hmax, if_neg hmax]

theorem rateLimitStep_fresh (cfg : RateLimitConfig)
    (store : List (String × RateData)) (k : String) (now : Int)
    (hget : mapGet (purge store (now - cfg.windowMs)) k = none)
    (hw : 0 ≤ cfg.windowMs) :
    rateLimitStep cfg store k now =
      (if 1 > cfg.maxRequests then purge store (now - cfg.windowMs)
        else mapSet (purge store (now - cfg.windowMs)) k { count := 1, resetTime := now },
        if 1 > cfg.maxRequests then
          RLResult.rejected (jsCeilDivThousand (now + cfg.windowMs - now))
        else RLResult.admitted) := by
  have hnotlt : ¬ ((Option.getD none { count := 0, resetTime := now } :
      RateData).resetTime < now - cfg.windowMs) := by
    simp only [Option.getD_none]
    omega
  simp only [rateLimitStep]
  rw [hget]
  rw [if_neg hnotlt]
  simp only [Option.getD_none]
  by_cases hmax : 0 + 1 > cfg.maxRequests
  · rw [if_pos hmax, if_pos (by omega : 1 > cfg.maxRequests),
      if_pos (by omega : 1 > cfg.maxRequests)]
  · rw [if_neg hmax, if_neg (by omega : ¬ 1 > cfg.maxRequests),
      if_neg (by omega : ¬ 1 > cfg.maxRequests)]

/-- C3 (amended): an admission check increments the stored count and
rejects exactly when the post-increment count exceeds the quota; the
key is treated as fresh — count restarted at 1, admitted when the
quota allows at least one request — exactly when no entry exists or
the entry is strictly older than the window
(`resetTime < now - windowMs`); at the exact boundary
`now - resetTime = windowMs` the existing window still applies. -/
theorem rateLimitStep_spec (cfg : RateLimitConfig) (store : List (String × RateData))
    (k : String) (now : Int) (hnd : (store.map Prod.fst).Nodup)
    (hw : 0 ≤ cfg.windowMs) :
    (∀ d, mapGet store k = some d → ¬ d.resetTime < now - cfg.windowMs →
      mapGet (rateLimitStep cfg store k now).1 k =
          some { count := d.count + 1, resetTime := d.resetTime } ∧
        ((rateLimitStep cfg store k now).2 = RLResult.admitted ↔
          d.count + 1 ≤ cfg.maxRequests)) ∧
    ((mapGet store k = none ∨
        ∃ d, mapGet store k = some d ∧ d.resetTime < now - cfg.windowMs) →
      (1 ≤ cfg.maxRequests →
        mapGet (rateLimitStep cfg store k now).1 k =
            some { count := 1, resetTime := now } ∧
          (rateLimitStep cfg store k now).2 = RLResult.admitted) ∧
      (cfg.maxRequests = 0 →
        mapGet (rateLimitStep cfg store k now).1 k = none ∧
          (rateLimitStep cfg store k now).2 ≠ RLResult.admitted)) := by
  constructor
  · intro d hd hdk
    have hget : mapGet (purge store (now - cfg.windowMs)) k = some d :=
      mapGet_purge_of_keep store _ k d hd hdk
    rw [rateLimitStep_existing cfg store k now d hget hdk]
    refine ⟨mapGet_mapSet_self _ _ _, ?_⟩
    by_cases hmax : d.count + 1 > cfg.maxRequests
    · rw [if_pos hmax]
      constructor
      · intro hcontra; exact absurd hcontra (by simp)
      · intro hle; omega
    · rw [if_neg hmax]
      exact ⟨fun _ => by omega, fun _ => rfl⟩
  · intro h
    have hget : mapGet (purge store (now - cfg.windowMs)) k = none :=
      mapGet_purge_none store _ k hnd h
    rw [rateLimitStep_fresh cfg store k now hget hw]
    constructor
    · intro hone
      have hmax : ¬ 1 > cfg.maxRequests := by omega
      rw [if_neg hmax, if_neg hmax]
      exact ⟨mapGet_mapSet_self _ _ _, rfl⟩
    · intro hzero
      have hmax : 1 > cfg.maxRequests := by omega
      rw [if_pos hmax, if_pos hmax]
      exact ⟨hget, by simp⟩

/-- A sample stored rate-limit window. -/
def sampleRateData : RateData := { count := 2, resetTime := 50 }

/-- A sample one-entry request store. -/
def sampleStore : List (String × RateData) := [("k", sampleRateData)]

theorem rateLimitStep_spec_witness :
    (sampleStore.map Prod.fst).Nodup ∧
      (0 : Int) ≤ (100 : Int) ∧
      mapGet sampleStore "k" = some sampleRateData ∧
      ¬ sampleRateData.resetTime < 60 - 100 ∧
      ((rateLimitStep { windowMs := 100, maxRequests := 2 } sampleStore "k" 60).2 =
          RLResult.admitted ↔ sampleRateData.count + 1 ≤ 2) :=
  ⟨by decide, by decide, by decide, by decide,
    ((rateLimitStep_spec { windowMs := 100, maxRequests := 2 } sampleStore "k" 60
        (by decide) (by decide)).1 sampleRateData (by decide) (by decide)).2⟩

/-- C3 counterexample to the claim as stated: with `windowMs = 100`
and `maxRequests = 1`, the first check at time 0 admits and stores
count 1; at time 100 the claimed expiry condition
`now - windowStart >= windowMs` holds, so the claim predicts a fresh
admitted window of count 1, but the source tests
`resetTime < now - windowMs` strictly and therefore increments to 2
and rejects. -/
theorem rateLimitStep_boundary_counterexample :
    rateLimitStep { windowMs := 100, maxRequests := 1 } [] "k" 0 =
        ([("k", { count := 1, resetTime := 0 })], RLResult.admitted) ∧
      (100 : Int) - 0 ≥ 100 ∧
      (rateLimitStep { windowMs := 100, maxRequests := 1 }
          [("k", { count := 1, resetTime := 0 })] "k" 100).2 ≠ RLResult.admitted ∧
      (rateLimitStep { windowMs := 100, maxRequests := 1 }
          [("k", { count := 1, resetTime := 0 })] "k" 100).1 =
        [("k", { count := 2, resetTime := 0 })] := by
  refine ⟨by decide, by decide, by decide, by decide⟩

end Steam
